import Mathlib

/-!
A verification development for the RepoPac repository packer
(`src/RepoPac/RepoPac/main.cpp`).  The program walks directory trees and
emits one Markdown report.  We embed its data model and operations
shallowly:

* `Entry` models a file-system node as classified by the program through
  `fs::is_directory` / `fs::is_regular_file` (both follow symlinks):
  a directory with its children, a regular file with its byte content
  (bytes modelled as `Char`s), or anything else (`other`).
* `Buf` models the `std::ostringstream out` buffer together with its
  failbit.  Per the C++ standard ([ostream.inserters]), the insertion
  `out << ifs.rdbuf()` sets `failbit` on `out` when zero characters are
  inserted (an empty file); once `failbit` is set, every later insertion
  through `out` is a no-op.  `emit` models formatted insertion,
  `emitRdbuf` models the `rdbuf` insertion used at `main.cpp:65`.
* Directory enumeration order is unspecified, so a directory's `children`
  list carries an arbitrary enumeration order; `std::sort` at
  `main.cpp:87` / `main.cpp:107` is modelled by `sortEntries`, an
  insertion sort by filename in byte/codepoint order (for the duplicate
  free name lists produced by a real file system, any sorted permutation
  is unique, so this is exactly the observable behaviour of `std::sort`).
* `fs::absolute` (`main.cpp:128`) is modelled by `fsAbsolute`, with the
  process working directory passed explicitly: per its specification it
  is `current_path() / p` and performs no canonicalization.
* The whole process (`main`) becomes `runMain`, returning the text
  written to standard output, the text written to the error stream, and
  the exit status.
-/

set_option maxRecDepth 8192

namespace RepoPac

/-! ### The output buffer (`std::ostringstream` plus failbit) -/

/-- Model of the report buffer `out`: accumulated text plus the stream's
failbit.  C++ stream insertions are skipped once the failbit is set. -/
structure Buf where
  str : String
  fail : Bool
deriving DecidableEq

def emptyBuf : Buf := ⟨"", false⟩

/-- Formatted insertion `out << s` (also covers `out << '\n'` and
`out << number`): appends unless the failbit is set. -/
def emit (b : Buf) (s : String) : Buf :=
  if b.fail then b else ⟨b.str ++ s, false⟩

/-- The insertion `out << ifs.rdbuf()` at `main.cpp:65`: if the stream's
failbit is set the sentry fails and nothing happens; otherwise the file's
characters are inserted, and if zero characters were inserted the failbit
is set on `out` ([ostream.inserters]). -/
def emitRdbuf (b : Buf) (c : List Char) : Buf :=
  if b.fail then b
  else if c.isEmpty then ⟨b.str, true⟩
  else ⟨b.str ++ String.mk c, false⟩

/-! ### The file-system model -/

/-- A file-system node as the program classifies it: `dir` when
`fs::is_directory` holds, `file` when `fs::is_regular_file` holds,
`other` for everything else that exists (sockets, devices, dangling
symlinks, ...).  A directory's children are listed in the (unspecified)
enumeration order of `fs::directory_iterator`. -/
inductive Entry where
  | dir (name : String) (children : List Entry)
  | file (name : String) (content : List Char)
  | other (name : String)

def Entry.name : Entry → String
  | .dir n _ => n
  | .file n _ => n
  | .other n => n

def Entry.isDir : Entry → Bool
  | .dir _ _ => true
  | _ => false

def Entry.isFile : Entry → Bool
  | .file _ _ => true
  | _ => false

def Entry.isOther : Entry → Bool
  | .other _ => true
  | _ => false

def Entry.contentOrNil : Entry → List Char
  | .file _ c => c
  | _ => []

@[simp] theorem Entry.name_dir (n : String) (cs : List Entry) : (Entry.dir n cs).name = n := rfl
@[simp] theorem Entry.name_file (n : String) (c : List Char) : (Entry.file n c).name = n := rfl
@[simp] theorem Entry.name_other (n : String) : (Entry.other n).name = n := rfl
@[simp] theorem Entry.isDir_dir (n : String) (cs : List Entry) : (Entry.dir n cs).isDir = true := rfl
@[simp] theorem Entry.isDir_file (n : String) (c : List Char) : (Entry.file n c).isDir = false := rfl
@[simp] theorem Entry.isDir_other (n : String) : (Entry.other n).isDir = false := rfl
@[simp] theorem Entry.isFile_dir (n : String) (cs : List Entry) : (Entry.dir n cs).isFile = false := rfl
@[simp] theorem Entry.isFile_file (n : String) (c : List Char) : (Entry.file n c).isFile = true := rfl
@[simp] theorem Entry.isFile_other (n : String) : (Entry.other n).isFile = false := rfl
@[simp] theorem Entry.isOther_dir (n : String) (cs : List Entry) : (Entry.dir n cs).isOther = false := rfl
@[simp] theorem Entry.isOther_file (n : String) (c : List Char) : (Entry.file n c).isOther = false := rfl
@[simp] theorem Entry.isOther_other (n : String) : (Entry.other n).isOther = true := rfl
@[simp] theorem Entry.contentOrNil_file (n : String) (c : List Char) :
    (Entry.file n c).contentOrNil = c := rfl

/-! ### Filename ordering (byte/codepoint lexicographic) -/

/-- Byte/codepoint lexicographic `≤` on character lists; this is the
comparison `a.path().filename() < b.path().filename()` of `main.cpp:88`
turned into its non-strict counterpart. -/
def lexLE : List Char → List Char → Bool
  | [], _ => true
  | _ :: _, [] => false
  | a :: as, b :: bs => if a < b then true else if b < a then false else lexLE as bs

theorem lexLE_cons_iff {a b : Char} {as bs : List Char} :
    lexLE (a :: as) (b :: bs) = true ↔ a < b ∨ (a = b ∧ lexLE as bs = true) := by
  by_cases h1 : a < b
  · simp [lexLE, h1]
  · by_cases h2 : b < a
    · have hne : a ≠ b := fun h => absurd (h ▸ h2) (lt_irrefl a)
      simp [lexLE, h1, h2, hne]
    · have heq : a = b := le_antisymm (le_of_not_lt h2) (le_of_not_lt h1)
      simp [lexLE, h1, h2, heq]

theorem lexLE_refl : ∀ l : List Char, lexLE l l = true
  | [] => rfl
  | _ :: l => lexLE_cons_iff.mpr (Or.inr ⟨rfl, lexLE_refl l⟩)

theorem lexLE_total : ∀ l₁ l₂ : List Char, lexLE l₁ l₂ = true ∨ lexLE l₂ l₁ = true
  | [], _ => Or.inl rfl
  | _ :: _, [] => Or.inr rfl
  | a :: as, b :: bs => by
    rcases lt_trichotomy a b with h | h | h
    · exact Or.inl (lexLE_cons_iff.mpr (Or.inl h))
    · rcases lexLE_total as bs with ih | ih
      · exact Or.inl (lexLE_cons_iff.mpr (Or.inr ⟨h, ih⟩))
      · exact Or.inr (lexLE_cons_iff.mpr (Or.inr ⟨h.symm, ih⟩))
    · exact Or.inr (lexLE_cons_iff.mpr (Or.inl h))

theorem lexLE_trans : ∀ l₁ l₂ l₃ : List Char,
    lexLE l₁ l₂ = true → lexLE l₂ l₃ = true → lexLE l₁ l₃ = true
  | [], _, _, _, _ => rfl
  | a :: as, b :: bs, [], _, h2 => by cases h2
  | _ :: _, [], _, h1, _ => by cases h1
  | a :: as, b :: bs, c :: cs, h1, h2 => by
    rcases lexLE_cons_iff.mp h1 with hab | ⟨hab, h1'⟩ <;>
      rcases lexLE_cons_iff.mp h2 with hbc | ⟨hbc, h2'⟩
    · exact lexLE_cons_iff.mpr (Or.inl (lt_trans hab hbc))
    · exact lexLE_cons_iff.mpr (Or.inl (hbc ▸ hab))
    · exact lexLE_cons_iff.mpr (Or.inl (hab ▸ hbc))
    · exact lexLE_cons_iff.mpr (Or.inr ⟨hab.trans hbc, lexLE_trans as bs cs h1' h2'⟩)

theorem lexLE_antisymm : ∀ l₁ l₂ : List Char,
    lexLE l₁ l₂ = true → lexLE l₂ l₁ = true → l₁ = l₂
  | [], [], _, _ => rfl
  | [], _ :: _, _, h2 => by cases h2
  | _ :: _, [], h1, _ => by cases h1
  | a :: as, b :: bs, h1, h2 => by
    rcases lexLE_cons_iff.mp h1 with hab | ⟨hab, h1'⟩ <;>
      rcases lexLE_cons_iff.mp h2 with hba | ⟨hba, h2'⟩
    · exact absurd hba (lt_asymm hab)
    · exact absurd hab (hba ▸ lt_irrefl b)
    · exact absurd hba (hab ▸ lt_irrefl a)
    · exact hab ▸ congrArg (a :: ·) (lexLE_antisymm as bs h1' h2')

theorem string_eq_of_data_eq {s t : String} (h : s.data = t.data) : s = t := by
  cases s; cases t; exact congrArg String.mk (by simpa using h)

/-- The ordering in which `std::sort` at `main.cpp:87` / `main.cpp:107`
arranges directory entries: by filename, byte/codepoint order. -/
def entLE (a b : Entry) : Prop := lexLE a.name.data b.name.data = true

instance entLE.decRel : DecidableRel entLE := fun a b =>
  inferInstanceAs (Decidable (lexLE a.name.data b.name.data = true))

instance : IsTotal Entry entLE := ⟨fun a b => lexLE_total a.name.data b.name.data⟩

instance : IsTrans Entry entLE :=
  ⟨fun a b c => lexLE_trans a.name.data b.name.data c.name.data⟩

theorem entLE_name_eq {a b : Entry} (h1 : entLE a b) (h2 : entLE b a) :
    a.name = b.name :=
  string_eq_of_data_eq (lexLE_antisymm _ _ h1 h2)

/-- Strict version, used to show a sorted duplicate-free arrangement is
unique. -/
def entNameLT (a b : Entry) : Prop := entLE a b ∧ a.name ≠ b.name

instance : IsAntisymm Entry entNameLT :=
  ⟨fun _ _ h1 h2 => absurd (entLE_name_eq h1.1 h2.1) h1.2⟩

/-- Model of `std::sort(entries, by filename)`: the sorted arrangement of
one directory's entries. -/
def sortEntries (es : List Entry) : List Entry := List.insertionSort entLE es

theorem sortEntries_perm (es : List Entry) : List.Perm (sortEntries es) es :=
  List.perm_insertionSort entLE es

theorem sortEntries_sorted (es : List Entry) : List.Sorted entLE (sortEntries es) :=
  List.sorted_insertionSort entLE es

theorem sizeOf_sortEntries (es : List Entry) : sizeOf (sortEntries es) = sizeOf es :=
  (sortEntries_perm es).sizeOf_eq_sizeOf

/-! ### Paths -/

def startsWithSlash (p : String) : Bool :=
  match p.data with
  | [] => false
  | c :: _ => c == '/'

def endsWithSlash (p : String) : Bool :=
  match p.data.getLast? with
  | some c => c == '/'
  | none => false

/-- Path join: `fs::path::operator/` followed by `.string()` on a POSIX system:
join with a `/` separator unless one is already there. -/
def joinPath (p n : String) : String :=
  if p = "" then n
  else if endsWithSlash p then p ++ n
  else p ++ "/" ++ n

/-- Model of `fs::absolute(p).generic_string()` (`main.cpp:128`) with the process
working directory `cwd` passed explicitly: per the C++ specification this
is `current_path() / p` — purely syntactic, no canonicalization. -/
def fsAbsolute (cwd p : String) : String :=
  if startsWithSlash p then p else joinPath cwd p

/-- The filename component of a path: the part after the last slash. -/
def afterLastSlash (l : List Char) : List Char :=
  l.foldl (fun acc c => if c = '/' then [] else acc ++ [c]) []

/-- Model of `fs::path::extension().string()` (`main.cpp:51`): the final
dot-suffix of the filename; empty for `.` and `..`, for dotfiles such as
`.gitignore`, and for names with no dot. -/
def extensionOf (p : String) : String :=
  let f := afterLastSlash p.data
  if f = ['.'] ∨ f = ['.', '.'] then ("")
  else
    let r := f.reverse
    if r.contains '.' then
      let rest := r.dropWhile (fun c => c != '.')
      if rest.length ≤ 1 then ("")
      else String.mk ('.' :: (r.takeWhile (fun c => c != '.')).reverse)
    else ("")

/-! ### The file renderer (`print_file`, `main.cpp:47`) -/

def kMaxBytes : Nat := 16 * 1024

/-- The opening fence with language tag (`main.cpp:51`–`main.cpp:55`). -/
def langFence (p : String) : String :=
  let ext := extensionOf p
  if ext = ".json" then ("```json\n")
  else if ext = ".js" then ("```javascript\n")
  else if ext = ".cpp" ∨ ext = ".hpp" then ("```cpp\n")
  else ("```\n")

/-- Model of `print_file` (`main.cpp:47`–`main.cpp:77`) for a file that can be
opened: header, opening fence, then either the whole content via
`out << ifs.rdbuf()` (when the size is at most the 16384-byte cap) or
the first 16384 bytes followed by the truncation notice, then the
closing fence. -/
def printFile (b : Buf) (p : String) (c : List Char) : Buf :=
  let b1 := emit b ("### File: " ++ p ++ "\n")
  let b2 := emit b1 (langFence p)
  let b3 :=
    if c.length ≤ kMaxBytes then emit (emitRdbuf b2 c) ("\n")
    else
      emit (emit b2 (String.mk (c.take kMaxBytes)))
        ("\n... (truncated; original " ++ toString c.length ++
          " bytes, showing first " ++ toString kMaxBytes ++ " bytes)\n")
  emit b3 ("```\n\n")

/-! ### The tree walker (`collect_files`, `print_structure`) -/

def indent (d : Nat) : String := String.mk (List.replicate (d * 2) ' ')

mutual

/-- Model of `print_structure` (`main.cpp:99`–`main.cpp:122`): for a directory,
list the sorted entries, recursing into subdirectories; for anything
else, print nothing. -/
def printStructure (b : Buf) (t : Entry) (d : Nat) : Buf :=
  match t with
  | .dir _ cs => printStructList b (sortEntries cs) d
  | _ => b
termination_by sizeOf t
decreasing_by
  simp only [sizeOf_sortEntries, Entry.dir.sizeOf_spec]
  omega

/-- The loop body of `print_structure` over the sorted entries of one
directory (`main.cpp:110`–`main.cpp:120`). -/
def printStructList (b : Buf) (es : List Entry) (d : Nat) : Buf :=
  match es with
  | [] => b
  | e :: rest =>
    let b1 : Buf :=
      match e with
      | .dir n cs => printStructure (emit b (indent d ++ n ++ "/\n")) (.dir n cs) (d + 1)
      | .file n _ => emit b (indent d ++ n ++ "\n")
      | .other _ => b
    printStructList b1 rest d
termination_by sizeOf es
decreasing_by
  all_goals simp only [Entry.dir.sizeOf_spec, Entry.file.sizeOf_spec,
    Entry.other.sizeOf_spec, List.cons.sizeOf_spec]
  all_goals omega

end

mutual

/-- Model of `collect_files` (`main.cpp:79`–`main.cpp:97`): the flattened file
list (each file paired with its path string and content). -/
def collectFiles (p : String) (t : Entry) : List (String × List Char) :=
  match t with
  | .file _ c => [(p, c)]
  | .other _ => []
  | .dir _ cs => collectList p (sortEntries cs)
termination_by sizeOf t
decreasing_by
  simp only [sizeOf_sortEntries, Entry.dir.sizeOf_spec]
  omega

/-- The loop body of `collect_files` over the sorted entries of one
directory (`main.cpp:89`–`main.cpp:92`). -/
def collectList (p : String) (es : List Entry) : List (String × List Char) :=
  match es with
  | [] => []
  | .dir n cs :: rest => collectFiles (joinPath p n) (.dir n cs) ++ collectList p rest
  | .file n c :: rest => (joinPath p n, c) :: collectList p rest
  | .other _ :: rest => collectList p rest
termination_by sizeOf es
decreasing_by
  all_goals simp only [Entry.dir.sizeOf_spec, Entry.file.sizeOf_spec,
    Entry.other.sizeOf_spec, List.cons.sizeOf_spec]
  all_goals omega

end

/-! ### The report assembler (`print_dir`, `main.cpp:124`) -/

/-- Model of `is_git_repo` (`main.cpp:43`): is there a `.git` entry directly
under the root that is a directory. -/
def isGitRepo : Entry → Bool
  | .dir _ cs => cs.any (fun e => e.name == ".git" && e.isDir)
  | _ => false

/-- The rendering loop of `main.cpp:149`–`main.cpp:151`. -/
def renderFiles (files : List (String × List Char)) (b : Buf) : Buf :=
  match files with
  | [] => b
  | f :: rest => renderFiles rest (printFile b f.1 f.2)

/-- Model of `print_dir` (`main.cpp:124`–`main.cpp:153`). -/
def printDir (b : Buf) (cwd p : String) (t : Entry) : Buf :=
  let b1 := emit b ("# Repository Context\n\n")
  let b2 := emit b1 ("## File System Location\n\n")
  let b3 := emit b2 (fsAbsolute cwd p ++ "\n\n")
  let b4 := if isGitRepo t then emit b3 ("## Git Info\n\n") else emit b3 ("Not a git repository\n\n")
  let b5 := emit b4 ("## Structure\n")
  let b6 := emit b5 ("```\n")
  let b7 := printStructure b6 t 0
  let b8 := emit b7 ("```\n\n")
  let files := collectFiles p t
  if files.isEmpty then b8 else renderFiles files (emit b8 ("## File Contents\n\n"))

/-! ### The argument parser and `main` (`main.cpp:155`–`main.cpp:201`) -/

def startsDash (a : String) : Bool :=
  match a.data with
  | [] => false
  | c :: _ => c == '-'

inductive ParseOut where
  | help
  | version
  | unknown (arg : String)
  | run (paths : List String)
deriving DecidableEq

/-- The flag-parsing loop of `main.cpp:160`–`main.cpp:178`, scanning
arguments left to right and accumulating target paths. -/
def parseLoop (acc : List String) : List String → ParseOut
  | [] => .run acc
  | a :: rest =>
    if a == "-h" || a == "--help" then .help
    else if a == "-v" || a == "--version" then .version
    else if startsDash a then .unknown a
    else parseLoop (acc ++ [a]) rest

def helpText : String :=
  "Usage: \n\tRepoPac [PATH ...][OPTIONS]\n" ++
  "Description:\n\tRepoPac can help you package repository\x27s content\n" ++
  "Options:\n" ++
  "\t-h, --help\tShow this help and exit\n" ++
  "\t-v, --version\tShow version and exit\n" ++
  "Arguments:\n" ++
  "\tOne directories/One or more files(default: .)\n"

def versionText : String := "repopac 0.1.0\n"

/-- The target-processing loop of `main.cpp:184`–`main.cpp:196`,
threading the shared output buffer and accumulating error-stream text.
`resolve` stands for the file system's answer to the existence/type
queries on a target path: `none` when `fs::exists` fails. -/
def processTargets (cwd : String) (resolve : String → Option Entry) :
    Buf → String → List String → Buf × String
  | b, err, [] => (b, err)
  | b, err, p :: rest =>
    match resolve p with
    | none => processTargets cwd resolve b (err ++ p ++ "is not a valid directory or file\n") rest
    | some t =>
      if t.isDir then processTargets cwd resolve (printDir b cwd p t) err rest
      else if t.isFile then
        processTargets cwd resolve (printFile (emit b ("## File Contents\n\n")) p t.contentOrNil) err rest
      else processTargets cwd resolve b err rest

/-- The whole process (`main.cpp:155`–`main.cpp:201`): returns the text
written to standard output, the text written to the error stream, and
the exit status. -/
def runMain (cwd : String) (resolve : String → Option Entry) (args : List String) :
    String × String × Nat :=
  match parseLoop [] args with
  | .help => (helpText, "", 0)
  | .version => (versionText, "", 0)
  | .unknown a => ("", "Unknown option: " ++ a ++ "\n" ++ "Use -h or --help for usage.\n", 1)
  | .run ps =>
    let ps' := if ps.isEmpty then ["."] else ps
    let r := processTargets cwd resolve emptyBuf ("") ps'
    (r.1.str, r.2, 0)

/-! ### Rewriting equations for the recursive walkers -/

@[simp] theorem collectFiles_file (p n : String) (c : List Char) :
    collectFiles p (.file n c) = [(p, c)] := by simp [collectFiles]

@[simp] theorem collectFiles_other (p n : String) :
    collectFiles p (.other n) = [] := by simp [collectFiles]

@[simp] theorem collectFiles_dir (p n : String) (cs : List Entry) :
    collectFiles p (.dir n cs) = collectList p (sortEntries cs) := by
  rw [collectFiles]

@[simp] theorem collectList_nil (p : String) : collectList p [] = [] := by
  simp [collectList]

@[simp] theorem collectList_cons_dir (p n : String) (cs rest : List Entry) :
    collectList p (.dir n cs :: rest) =
      collectFiles (joinPath p n) (.dir n cs) ++ collectList p rest := by
  rw [collectList]

@[simp] theorem collectList_cons_file (p n : String) (c : List Char) (rest : List Entry) :
    collectList p (.file n c :: rest) = (joinPath p n, c) :: collectList p rest := by
  rw [collectList]

@[simp] theorem collectList_cons_other (p n : String) (rest : List Entry) :
    collectList p (.other n :: rest) = collectList p rest := by
  rw [collectList]

@[simp] theorem printStructure_dir (b : Buf) (n : String) (cs : List Entry) (d : Nat) :
    printStructure b (.dir n cs) d = printStructList b (sortEntries cs) d := by
  rw [printStructure]

@[simp] theorem printStructure_file (b : Buf) (n : String) (c : List Char) (d : Nat) :
    printStructure b (.file n c) d = b := by
  simp [printStructure]

@[simp] theorem printStructure_other (b : Buf) (n : String) (d : Nat) :
    printStructure b (.other n) d = b := by
  simp [printStructure]

@[simp] theorem printStructList_nil (b : Buf) (d : Nat) : printStructList b [] d = b := by
  rw [printStructList]

@[simp] theorem printStructList_cons_dir (b : Buf) (n : String) (cs rest : List Entry) (d : Nat) :
    printStructList b (.dir n cs :: rest) d =
      printStructList (printStructure (emit b (indent d ++ n ++ "/\n")) (.dir n cs) (d + 1)) rest d := by
  rw [printStructList]

@[simp] theorem printStructList_cons_file (b : Buf) (n : String) (c : List Char)
    (rest : List Entry) (d : Nat) :
    printStructList b (.file n c :: rest) d =
      printStructList (emit b (indent d ++ n ++ "\n")) rest d := by
  rw [printStructList]

@[simp] theorem printStructList_cons_other (b : Buf) (n : String) (rest : List Entry) (d : Nat) :
    printStructList b (.other n :: rest) d = printStructList b rest d := by
  rw [printStructList]

/-! ### Buffer lemmas: every rendering operation only appends -/

theorem emit_of_fail {b : Buf} (h : b.fail = true) (s : String) : emit b s = b := by
  simp [emit, h]

theorem emit_of_good {b : Buf} (h : b.fail = false) (s : String) :
    emit b s = ⟨b.str ++ s, false⟩ := by
  simp [emit, h]

/-- A rendering step: it leaves a failed buffer alone, and on a healthy
buffer appends a fixed string and sets the failbit to a fixed value,
independently of what the buffer already holds. -/
def StepFn (f : Buf → Buf) : Prop :=
  (∀ b, b.fail = true → f b = b) ∧
  ∃ s fl, ∀ b, b.fail = false → f b = ⟨b.str ++ s, fl⟩

theorem StepFn.id : StepFn (fun b => b) :=
  ⟨fun _ _ => rfl, "", false, fun b hb => by
    cases b with | mk s f => simp_all [String.append_empty]⟩

theorem StepFn.comp {f g : Buf → Buf} (hf : StepFn f) (hg : StepFn g) :
    StepFn (fun b => g (f b)) := by
  obtain ⟨hf1, s1, fl1, hf2⟩ := hf
  obtain ⟨hg1, s2, fl2, hg2⟩ := hg
  cases fl1 with
  | true =>
    refine ⟨fun b hb => ?_, s1, true, fun b hb => ?_⟩
    · show g (f b) = b
      rw [hf1 b hb, hg1 b hb]
    · show g (f b) = _
      rw [hf2 b hb, hg1 _ rfl]
  | false =>
    refine ⟨fun b hb => ?_, s1 ++ s2, fl2, fun b hb => ?_⟩
    · show g (f b) = b
      rw [hf1 b hb, hg1 b hb]
    · show g (f b) = _
      rw [hf2 b hb, hg2 _ rfl]
      simp [String.append_assoc]

theorem stepfn_emit (s : String) : StepFn (fun b => emit b s) :=
  ⟨fun _ hb => emit_of_fail hb s, s, false, fun _ hb => emit_of_good hb s⟩

theorem stepfn_emitRdbuf (c : List Char) : StepFn (fun b => emitRdbuf b c) := by
  refine ⟨fun b hb => by simp [RepoPac.emitRdbuf, hb],
    if c.isEmpty then ("") else String.mk c, c.isEmpty, fun b hb => ?_⟩
  cases hc : c.isEmpty <;> simp [RepoPac.emitRdbuf, hb, hc, String.append_empty]

theorem stepfn_printFile (p : String) (c : List Char) :
    StepFn (fun b => printFile b p c) := by
  have base := (stepfn_emit ("### File: " ++ p ++ "\n")).comp (stepfn_emit (langFence p))
  by_cases h : c.length ≤ kMaxBytes
  · have := (base.comp ((stepfn_emitRdbuf c).comp (stepfn_emit ("\n")))).comp
      (stepfn_emit ("```\n\n"))
    simpa [RepoPac.printFile, h] using this
  · have := (base.comp ((stepfn_emit (String.mk (c.take kMaxBytes))).comp
      (stepfn_emit ("\n... (truncated; original " ++ toString c.length ++
        " bytes, showing first " ++ toString kMaxBytes ++ " bytes)\n")))).comp
      (stepfn_emit ("```\n\n"))
    simpa [RepoPac.printFile, h] using this

theorem stepfn_printStructList (es : List Entry) (d : Nat)
    (ih : ∀ e ∈ es, ∀ d', StepFn (fun b => printStructure b e d')) :
    StepFn (fun b => printStructList b es d) := by
  induction es with
  | nil => simpa using StepFn.id
  | cons e rest ihr =>
    have hrest : StepFn (fun b => printStructList b rest d) :=
      ihr (fun x hx d' => ih x (List.mem_cons_of_mem e hx) d')
    cases e with
    | dir n cs =>
      have := ((stepfn_emit (indent d ++ n ++ "/\n")).comp
        (ih _ (List.mem_cons_self _ _) (d + 1))).comp hrest
      simpa using this
    | file n c =>
      have := (stepfn_emit (indent d ++ n ++ "\n")).comp hrest
      simpa using this
    | other n => simpa using hrest

theorem stepfn_printStructure_aux :
    ∀ (N : Nat) (t : Entry), sizeOf t ≤ N → ∀ d, StepFn (fun b => printStructure b t d) := by
  intro N
  induction N with
  | zero =>
    intro t ht
    exact absurd ht (by cases t <;> simp)
  | succ N ihN =>
    intro t ht d
    cases t with
    | file n c => simpa using StepFn.id
    | other n => simpa using StepFn.id
    | dir n cs =>
      have hmem : ∀ e ∈ sortEntries cs, sizeOf e ≤ N := by
        intro e he
        have : e ∈ cs := ((sortEntries_perm cs).mem_iff).mp he
        have h1 := List.sizeOf_lt_of_mem this
        have h2 : sizeOf (Entry.dir n cs) = 1 + sizeOf n + sizeOf cs := by simp
        omega
      have hlist := stepfn_printStructList (sortEntries cs) d
        (fun e he d' => ihN e (hmem e he) d')
      simpa using hlist

theorem stepfn_printStructure (t : Entry) (d : Nat) :
    StepFn (fun b => printStructure b t d) :=
  stepfn_printStructure_aux (sizeOf t) t le_rfl d

theorem stepfn_renderFiles (files : List (String × List Char)) :
    StepFn (fun b => renderFiles files b) := by
  induction files with
  | nil => simpa [RepoPac.renderFiles] using StepFn.id
  | cons f rest ih =>
    have := (stepfn_printFile f.1 f.2).comp ih
    simpa [RepoPac.renderFiles] using this

theorem stepfn_printDir (cwd p : String) (t : Entry) :
    StepFn (fun b => printDir b cwd p t) := by
  have hgit : StepFn (fun b => if isGitRepo t then emit b ("## Git Info\n\n")
      else emit b ("Not a git repository\n\n")) := by
    by_cases h : isGitRepo t
    · simpa [h] using stepfn_emit ("## Git Info\n\n")
    · simpa [h] using stepfn_emit ("Not a git repository\n\n")
  have htail : StepFn (fun b => if (collectFiles p t).isEmpty then b
      else renderFiles (collectFiles p t) (emit b ("## File Contents\n\n"))) := by
    by_cases h : (collectFiles p t).isEmpty
    · simpa [h] using StepFn.id
    · simpa [h] using (stepfn_emit ("## File Contents\n\n")).comp
        (stepfn_renderFiles (collectFiles p t))
  have := ((((((((stepfn_emit ("# Repository Context\n\n")).comp
    (stepfn_emit ("## File System Location\n\n"))).comp
    (stepfn_emit (fsAbsolute cwd p ++ "\n\n"))).comp hgit).comp
    (stepfn_emit ("## Structure\n"))).comp
    (stepfn_emit ("```\n"))).comp
    (stepfn_printStructure t 0)).comp
    (stepfn_emit ("```\n\n"))).comp htail
  simpa [RepoPac.printDir] using this

/-! ### Logical sameness of file systems up to enumeration order -/

/-- Two nodes describe the same logical file system; the children of
each directory may be enumerated in different orders on the two sides
(`fs::directory_iterator` guarantees no particular order). -/
inductive SameFS : Entry → Entry → Prop where
  | file (n : String) (c : List Char) : SameFS (.file n c) (.file n c)
  | other (n : String) : SameFS (.other n) (.other n)
  | dir (n : String) (cs₁ cs' cs₂ : List Entry) :
      List.Perm cs₁ cs' → List.Forall₂ SameFS cs' cs₂ → SameFS (.dir n cs₁) (.dir n cs₂)

/-- Well-formedness a real file system delivers: sibling names are
pairwise distinct at every directory level. -/
inductive WFNames : Entry → Prop where
  | file (n : String) (c : List Char) : WFNames (.file n c)
  | other (n : String) : WFNames (.other n)
  | dir (n : String) (cs : List Entry) : (cs.map Entry.name).Nodup →
      (∀ e ∈ cs, WFNames e) → WFNames (.dir n cs)

theorem SameFS.name_eq {a b : Entry} (h : SameFS a b) : a.name = b.name := by
  cases h <;> rfl

theorem SameFS.isDir_eq {a b : Entry} (h : SameFS a b) : a.isDir = b.isDir := by
  cases h <;> rfl

theorem SameFS.isFile_eq {a b : Entry} (h : SameFS a b) : a.isFile = b.isFile := by
  cases h <;> rfl

theorem SameFS.contentOrNil_eq {a b : Entry} (h : SameFS a b) :
    a.contentOrNil = b.contentOrNil := by
  cases h <;> rfl

theorem entLE_congr {a a' b b' : Entry} (ha : a.name = a'.name) (hb : b.name = b'.name) :
    entLE a b ↔ entLE a' b' := by
  unfold entLE
  rw [ha, hb]

theorem sameList_orderedInsert {a b : Entry} (hab : SameFS a b) :
    ∀ {l₁ l₂ : List Entry}, List.Forall₂ SameFS l₁ l₂ →
      List.Forall₂ SameFS (List.orderedInsert entLE a l₁) (List.orderedInsert entLE b l₂) := by
  intro l₁ l₂ h
  induction h with
  | nil => exact .cons hab .nil
  | cons hxy hrest ih =>
    rename_i x y m₁ m₂
    simp only [List.orderedInsert]
    by_cases hle : entLE a x
    · rw [if_pos hle, if_pos ((entLE_congr hab.name_eq hxy.name_eq).mp hle)]
      exact .cons hab (.cons hxy hrest)
    · rw [if_neg hle, if_neg (fun hc => hle ((entLE_congr hab.name_eq hxy.name_eq).mpr hc))]
      exact .cons hxy ih

theorem sameList_sortEntries : ∀ {l₁ l₂ : List Entry}, List.Forall₂ SameFS l₁ l₂ →
    List.Forall₂ SameFS (sortEntries l₁) (sortEntries l₂) := by
  intro l₁ l₂ h
  induction h with
  | nil => exact .nil
  | cons hab _ ih =>
    simpa only [sortEntries, List.insertionSort] using sameList_orderedInsert hab ih

theorem sorted_entNameLT {l : List Entry} (hs : List.Sorted entLE l)
    (hnd : (l.map Entry.name).Nodup) : List.Sorted entNameLT l := by
  have hpw : l.Pairwise (fun a b => a.name ≠ b.name) := by
    simpa [List.Nodup, List.pairwise_map] using hnd
  exact (hs.and hpw).imp (fun h => h)

/-- With pairwise-distinct sibling names, any two enumeration orders of
the same directory sort to the same arrangement — `std::sort`'s result
is fully determined. -/
theorem sortEntries_eq_of_perm {l₁ l₂ : List Entry} (hp : List.Perm l₁ l₂)
    (hnd : (l₁.map Entry.name).Nodup) : sortEntries l₁ = sortEntries l₂ := by
  have hs₁ : ((sortEntries l₁).map Entry.name).Nodup :=
    (((sortEntries_perm l₁).map Entry.name).nodup_iff).mpr hnd
  have hnd₂ : (l₂.map Entry.name).Nodup := ((hp.map Entry.name).nodup_iff).mp hnd
  have hs₂ : ((sortEntries l₂).map Entry.name).Nodup :=
    (((sortEntries_perm l₂).map Entry.name).nodup_iff).mpr hnd₂
  exact List.eq_of_perm_of_sorted
    (((sortEntries_perm l₁).trans hp).trans (sortEntries_perm l₂).symm)
    (sorted_entNameLT (sortEntries_sorted l₁) hs₁)
    (sorted_entNameLT (sortEntries_sorted l₂) hs₂)

theorem any_perm_entry {l₁ l₂ : List Entry} (h : List.Perm l₁ l₂) (f : Entry → Bool) :
    l₁.any f = l₂.any f := by
  have hiff : (l₁.any f = true) ↔ (l₂.any f = true) := by
    simp only [List.any_eq_true]
    constructor
    · rintro ⟨x, hx, hfx⟩
      exact ⟨x, h.mem_iff.mp hx, hfx⟩
    · rintro ⟨x, hx, hfx⟩
      exact ⟨x, h.mem_iff.mpr hx, hfx⟩
  cases h1 : l₁.any f <;> cases h2 : l₂.any f <;> simp_all

theorem any_sameList {l₁ l₂ : List Entry} (h : List.Forall₂ SameFS l₁ l₂) (f : Entry → Bool)
    (hf : ∀ a b, SameFS a b → f a = f b) : l₁.any f = l₂.any f := by
  induction h with
  | nil => rfl
  | cons hab _ ih => simp [hf _ _ hab, ih]

theorem isGitRepo_congr {t₁ t₂ : Entry} (h : SameFS t₁ t₂) :
    isGitRepo t₁ = isGitRepo t₂ := by
  cases h with
  | file n c => rfl
  | other n => rfl
  | dir n cs₁ cs' cs₂ hp hsl =>
    show cs₁.any _ = cs₂.any _
    rw [any_perm_entry hp]
    exact any_sameList hsl _ (fun a b hab => by rw [hab.name_eq, hab.isDir_eq])

theorem collectList_congr (p : String) :
    ∀ {l₁ l₂ : List Entry}, List.Forall₂ SameFS l₁ l₂ →
      (∀ a b, a ∈ l₁ → SameFS a b → ∀ q, collectFiles q a = collectFiles q b) →
      collectList p l₁ = collectList p l₂ := by
  intro l₁ l₂ h
  induction h with
  | nil => intro _; rfl
  | cons hab hrest ihl =>
    intro ih
    rename_i a b m₁ m₂
    have ih' : ∀ x y, x ∈ m₁ → SameFS x y → ∀ q, collectFiles q x = collectFiles q y :=
      fun x y hx => ih x y (List.mem_cons_of_mem a hx)
    cases hab with
    | file n c => simp [ihl ih']
    | other n => simp [ihl ih']
    | dir n cs₁ cs' cs₂ hp hsl =>
      rw [collectList_cons_dir, collectList_cons_dir,
        ih _ _ (List.mem_cons_self _ _) (SameFS.dir n cs₁ cs' cs₂ hp hsl) (joinPath p n),
        ihl ih']

theorem printStructList_congr (d : Nat) :
    ∀ {l₁ l₂ : List Entry}, List.Forall₂ SameFS l₁ l₂ →
      (∀ a b, a ∈ l₁ → SameFS a b →
        ∀ bb dd, printStructure bb a dd = printStructure bb b dd) →
      ∀ bb, printStructList bb l₁ d = printStructList bb l₂ d := by
  intro l₁ l₂ h
  induction h with
  | nil => intro _ bb; rfl
  | cons hab hrest ihl =>
    intro ih bb
    rename_i a b m₁ m₂
    have ih' : ∀ x y, x ∈ m₁ → SameFS x y →
        ∀ bb dd, printStructure bb x dd = printStructure bb y dd :=
      fun x y hx => ih x y (List.mem_cons_of_mem a hx)
    cases hab with
    | file n c => simpa using ihl ih' (emit bb (indent d ++ n ++ "\n"))
    | other n => simpa using ihl ih' bb
    | dir n cs₁ cs' cs₂ hp hsl =>
      simp only [printStructList_cons_dir]
      rw [ih _ _ (List.mem_cons_self _ _) (SameFS.dir n cs₁ cs' cs₂ hp hsl)]
      exact ihl ih' _

theorem det_aux : ∀ (N : Nat) (t₁ t₂ : Entry), sizeOf t₁ ≤ N → SameFS t₁ t₂ → WFNames t₁ →
    (∀ p, collectFiles p t₁ = collectFiles p t₂) ∧
    (∀ bb d, printStructure bb t₁ d = printStructure bb t₂ d) ∧
    isGitRepo t₁ = isGitRepo t₂ := by
  intro N
  induction N with
  | zero =>
    intro t₁ t₂ ht
    exact absurd ht (by cases t₁ <;> simp)
  | succ N ihN =>
    intro t₁ t₂ ht hsame hwf
    cases hsame with
    | file n c => exact ⟨fun _ => rfl, fun _ _ => rfl, rfl⟩
    | other n => exact ⟨fun _ => rfl, fun _ _ => rfl, rfl⟩
    | dir n cs₁ cs' cs₂ hp hsl =>
      cases hwf with
      | dir _ _ hnd hwfe =>
        have hsort : sortEntries cs₁ = sortEntries cs' := sortEntries_eq_of_perm hp hnd
        have hsl' : List.Forall₂ SameFS (sortEntries cs') (sortEntries cs₂) :=
          sameList_sortEntries hsl
        have hmem : ∀ x, x ∈ sortEntries cs' → x ∈ cs₁ := fun x hx =>
          hp.mem_iff.mpr ((sortEntries_perm cs').mem_iff.mp hx)
        have helem : ∀ a b, a ∈ sortEntries cs' → SameFS a b →
            (∀ q, collectFiles q a = collectFiles q b) ∧
            (∀ bb dd, printStructure bb a dd = printStructure bb b dd) ∧
            isGitRepo a = isGitRepo b := by
          intro a b ha hab
          have hlt := List.sizeOf_lt_of_mem (hmem a ha)
          have hspec : sizeOf (Entry.dir n cs₁) = 1 + sizeOf n + sizeOf cs₁ := by simp
          exact ihN a b (by omega) hab (hwfe a (hmem a ha))
        refine ⟨fun p => ?_, fun bb d => ?_, ?_⟩
        · rw [collectFiles_dir, collectFiles_dir, hsort]
          exact collectList_congr p hsl' (fun a b ha hab => (helem a b ha hab).1)
        · rw [printStructure_dir, printStructure_dir, hsort]
          exact printStructList_congr d hsl' (fun a b ha hab => (helem a b ha hab).2.1) bb
        · exact isGitRepo_congr (SameFS.dir n cs₁ cs' cs₂ hp hsl)

theorem collectFiles_congr_sameFS {t₁ t₂ : Entry} (h : SameFS t₁ t₂) (hwf : WFNames t₁)
    (p : String) : collectFiles p t₁ = collectFiles p t₂ :=
  (det_aux (sizeOf t₁) t₁ t₂ le_rfl h hwf).1 p

theorem printStructure_congr_sameFS {t₁ t₂ : Entry} (h : SameFS t₁ t₂) (hwf : WFNames t₁) :
    ∀ bb d, printStructure bb t₁ d = printStructure bb t₂ d :=
  (det_aux (sizeOf t₁) t₁ t₂ le_rfl h hwf).2.1

theorem printDir_congr {t₁ t₂ : Entry} (h : SameFS t₁ t₂) (hwf : WFNames t₁)
    (b : Buf) (cwd p : String) : printDir b cwd p t₁ = printDir b cwd p t₂ := by
  simp only [printDir]
  rw [isGitRepo_congr h, collectFiles_congr_sameFS h hwf p,
    printStructure_congr_sameFS h hwf]

/-- Two file-system oracles that answer every path query with the same
logical tree (children possibly enumerated in different orders), the
left one well-formed. -/
def SameResolve (r₁ r₂ : String → Option Entry) : Prop :=
  ∀ s, (r₁ s = none ∧ r₂ s = none) ∨
    ∃ t₁ t₂, r₁ s = some t₁ ∧ r₂ s = some t₂ ∧ SameFS t₁ t₂ ∧ WFNames t₁

theorem processTargets_congr {r₁ r₂ : String → Option Entry} (h : SameResolve r₁ r₂)
    (cwd : String) : ∀ (paths : List String) (b : Buf) (err : String),
      processTargets cwd r₁ b err paths = processTargets cwd r₂ b err paths := by
  intro paths
  induction paths with
  | nil => intro b err; rfl
  | cons p rest ih =>
    intro b err
    rcases h p with ⟨h1, h2⟩ | ⟨t₁, t₂, h1, h2, hsame, hwf⟩
    · simp only [processTargets, h1, h2]
      exact ih _ _
    · simp only [processTargets, h1, h2]
      by_cases hdir : t₁.isDir = true
      · rw [if_pos hdir, if_pos (hsame.isDir_eq ▸ hdir),
          ← printDir_congr hsame hwf b cwd p]
        exact ih _ _
      · rw [if_neg hdir, if_neg (fun hc => hdir (hsame.isDir_eq ▸ hc))]
        by_cases hfile : t₁.isFile = true
        · rw [if_pos hfile, if_pos (hsame.isFile_eq ▸ hfile), ← hsame.contentOrNil_eq]
          exact ih _ _
        · rw [if_neg hfile, if_neg (fun hc => hfile (hsame.isFile_eq ▸ hc))]
          exact ih _ _

theorem runMain_congr {r₁ r₂ : String → Option Entry} (h : SameResolve r₁ r₂)
    (cwd : String) (args : List String) : runMain cwd r₁ args = runMain cwd r₂ args := by
  rcases hP : parseLoop [] args with _ | _ | a | ps <;> simp only [runMain, hP]
  rw [processTargets_congr h cwd _ emptyBuf ("")]

/-! ### Entries that are neither directories nor regular files are inert -/

theorem entLE_trans {a b c : Entry} (h1 : entLE a b) (h2 : entLE b c) : entLE a c :=
  lexLE_trans _ _ _ h1 h2

theorem orderedInsert_of_forall_le {a : Entry} :
    ∀ {l : List Entry}, (∀ y ∈ l, entLE a y) →
      List.orderedInsert entLE a l = a :: l := by
  intro l h
  cases l with
  | nil => rfl
  | cons x xs =>
    simp only [List.orderedInsert, if_pos (h x (List.mem_cons_self x xs))]

theorem filter_orderedInsert (q : Entry → Bool) (a : Entry) :
    ∀ (l : List Entry), List.Sorted entLE l →
      (List.orderedInsert entLE a l).filter q =
        if q a then List.orderedInsert entLE a (l.filter q) else l.filter q := by
  intro l
  induction l with
  | nil =>
    intro _
    cases hq : q a <;> simp [List.orderedInsert, hq]
  | cons x xs ih =>
    intro hs
    have hs' : List.Sorted entLE xs := hs.of_cons
    by_cases hax : entLE a x
    · simp only [List.orderedInsert, if_pos hax]
      cases hq : q a
      · simp [List.filter, hq]
      · have hall : ∀ y ∈ (x :: xs).filter q, entLE a y := by
          intro y hy
          rcases List.mem_cons.mp (List.mem_of_mem_filter hy) with rfl | hy'
          · exact hax
          · exact entLE_trans hax (List.rel_of_sorted_cons hs y hy')
        rw [orderedInsert_of_forall_le hall]
        simp [List.filter, hq]
    · simp only [List.orderedInsert, if_neg hax]
      cases hq : q a <;> cases hqx : q x <;>
        simp [List.filter_cons, hq, hqx, ih hs', List.orderedInsert, hax]

/-- Filtering commutes with the (stable) sorting of directory entries. -/
theorem filter_sortEntries (q : Entry → Bool) (l : List Entry) :
    (sortEntries l).filter q = sortEntries (l.filter q) := by
  induction l with
  | nil => rfl
  | cons x xs ih =>
    show (List.orderedInsert entLE x (sortEntries xs)).filter q = _
    rw [filter_orderedInsert q x _ (sortEntries_sorted xs), ih]
    cases hq : q x <;>
      simp [List.filter_cons, hq, sortEntries, List.insertionSort]

theorem collectList_filter_other (p : String) :
    ∀ l : List Entry, collectList p (l.filter (fun e => !e.isOther)) = collectList p l := by
  intro l
  induction l with
  | nil => rfl
  | cons e rest ih => cases e <;> simp [List.filter_cons, ih]

theorem printStructList_filter_other (d : Nat) :
    ∀ (l : List Entry) (bb : Buf),
      printStructList bb (l.filter (fun e => !e.isOther)) d = printStructList bb l d := by
  intro l
  induction l with
  | nil => intro bb; rfl
  | cons e rest ih =>
    intro bb
    cases e <;> simp [List.filter_cons, ih]

/-! ### Spec-modelled canonicalization (for the location subsection) -/

/-- Split a character list at `/` separators. -/
def splitSlash : List Char → List (List Char)
  | [] => [[]]
  | c :: rest =>
    let r := splitSlash rest
    if c = '/' then [] :: r
    else
      match r with
      | [] => [[c]]
      | h :: t => (c :: h) :: t

/-- Modelled from the spec: §4.3 calls the rendered location "the root's
absolute, canonicalized, forward-slash-normalized path", but no
canonicalization procedure exists in `src/` (the code calls
`fs::absolute`, which does not canonicalize).  Canonicalization is
therefore modelled from the spec's word: resolving `.` and `..`
components (symlinks do not occur in the path syntax). -/
def specCanonicalize (p : String) : String :=
  let stack := (splitSlash p.data).foldl
    (fun st comp =>
      if comp = [] ∨ comp = ['.'] then st
      else if comp = ['.', '.'] then st.dropLast
      else st ++ [comp]) []
  if startsWithSlash p then String.mk ('/' :: List.intercalate ['/'] stack)
  else String.mk (List.intercalate ['/'] stack)

/-! ### The argument grammar -/

def flagTokens : List String := ["-h", "--help", "-v", "--version"]

theorem parseLoop_push {p : String} (hp : startsDash p = false)
    (acc rest : List String) : parseLoop acc (p :: rest) = parseLoop (acc ++ [p]) rest := by
  have h1 : p ≠ "-h" := fun he => by rw [he] at hp; exact absurd hp (by decide)
  have h2 : p ≠ "--help" := fun he => by rw [he] at hp; exact absurd hp (by decide)
  have h3 : p ≠ "-v" := fun he => by rw [he] at hp; exact absurd hp (by decide)
  have h4 : p ≠ "--version" := fun he => by rw [he] at hp; exact absurd hp (by decide)
  simp [parseLoop, h1, h2, h3, h4, hp]

theorem parseLoop_notFlag {p : String} (hp : p ∉ flagTokens) (acc rest : List String) :
    parseLoop acc (p :: rest) =
      if startsDash p then ParseOut.unknown p else parseLoop (acc ++ [p]) rest := by
  have h1 : p ≠ "-h" := fun he => hp (by rw [he]; decide)
  have h2 : p ≠ "--help" := fun he => hp (by rw [he]; decide)
  have h3 : p ≠ "-v" := fun he => hp (by rw [he]; decide)
  have h4 : p ≠ "--version" := fun he => hp (by rw [he]; decide)
  simp [parseLoop, h1, h2, h3, h4]

theorem parseLoop_unknown {a : String} (ha : startsDash a = true) (haf : a ∉ flagTokens)
    (l₂ : List String) :
    ∀ (l₁ : List String), (∀ x ∈ l₁, x ∉ flagTokens) →
      ∀ acc, ∃ u, startsDash u = true ∧ u ∉ flagTokens ∧
        parseLoop acc (l₁ ++ a :: l₂) = ParseOut.unknown u := by
  intro l₁
  induction l₁ with
  | nil =>
    intro _ acc
    exact ⟨a, ha, haf, by rw [List.nil_append, parseLoop_notFlag haf, if_pos ha]⟩
  | cons x xs ih =>
    intro hx acc
    have hxf : x ∉ flagTokens := hx x (List.mem_cons_self x xs)
    by_cases hdx : startsDash x = true
    · exact ⟨x, hdx, hxf, by rw [List.cons_append, parseLoop_notFlag hxf, if_pos hdx]⟩
    · obtain ⟨u, hu1, hu2, hu3⟩ :=
        ih (fun y hy => hx y (List.mem_cons_of_mem x hy)) (acc ++ [x])
      refine ⟨u, hu1, hu2, ?_⟩
      rw [List.cons_append, parseLoop_notFlag hxf,
        if_neg (by simp_all), hu3]

/-! ### Views of `print_dir` as a prefix plus an appending tail -/

/-- Everything `print_dir` does after the version-control line. -/
def structTail (p : String) (t : Entry) (x : Buf) : Buf :=
  let b5 := emit x ("## Structure\n")
  let b6 := emit b5 ("```\n")
  let b7 := printStructure b6 t 0
  let b8 := emit b7 ("```\n\n")
  let files := collectFiles p t
  if files.isEmpty then b8 else renderFiles files (emit b8 ("## File Contents\n\n"))

/-- Everything `print_dir` does after the location line. -/
def dirTail (p : String) (t : Entry) (x : Buf) : Buf :=
  structTail p t
    (if isGitRepo t then emit x ("## Git Info\n\n") else emit x ("Not a git repository\n\n"))

theorem printDir_eq_dirTail (b : Buf) (cwd p : String) (t : Entry) :
    printDir b cwd p t =
      dirTail p t (emit (emit (emit b ("# Repository Context\n\n"))
        ("## File System Location\n\n")) (fsAbsolute cwd p ++ "\n\n")) := rfl

theorem stepfn_structTail (p : String) (t : Entry) : StepFn (structTail p t) := by
  have hfiles : StepFn (fun x => if (collectFiles p t).isEmpty then x
      else renderFiles (collectFiles p t) (emit x ("## File Contents\n\n"))) := by
    by_cases h : (collectFiles p t).isEmpty
    · simpa [h] using StepFn.id
    · simpa [h] using (stepfn_emit ("## File Contents\n\n")).comp
        (stepfn_renderFiles (collectFiles p t))
  have := ((((stepfn_emit ("## Structure\n")).comp
    (stepfn_emit ("```\n"))).comp (stepfn_printStructure t 0)).comp
    (stepfn_emit ("```\n\n"))).comp hfiles
  show StepFn (fun x => structTail p t x)
  simpa [structTail] using this

/-! ### C1: the file renderer at and above the cap, and on empty files -/

/-- Claim C1, settled as a code bug.  Conjuncts 1 and 2: rendering an
empty file (size 0, well under the cap) emits the header and opening
fence, then `out << ifs.rdbuf()` inserts zero characters and sets the
failbit, so the content newline and the closing fence are lost and a
subsequent file's render is dropped entirely — its content never reaches
the output, contradicting the claim for that file.  Conjunct 3: a
nonempty file within the cap renders fully.  Conjunct 4: for a nonempty
file whose size is at most the cap (16384 bytes included), the rendered
output appends exactly header, fence, the whole content and the closing
fence — no truncation notice.  Conjunct 5: above the cap, exactly the
first 16384 bytes are shown, followed by the truncation notice stating
the original size and "showing first 16384 bytes". -/
theorem c1_file_renderer :
    (printFile emptyBuf ("a.txt") [] = ⟨"### File: a.txt\n```\n", true⟩) ∧
    ((printFile (printFile emptyBuf ("a.txt") []) "b.txt" ['x']).str =
      "### File: a.txt\n```\n") ∧
    (printFile emptyBuf ("c.txt") ['y'] = ⟨"### File: c.txt\n```\ny\n```\n\n", false⟩) ∧
    (∀ (p : String) (c : List Char) (b : Buf), c ≠ [] → c.length ≤ kMaxBytes →
      b.fail = false →
      printFile b p c = ⟨b.str ++ ("### File: " ++ p ++ "\n") ++ langFence p ++
        String.mk c ++ "\n" ++ "```\n\n", false⟩) ∧
    (∀ (p : String) (c : List Char) (b : Buf), kMaxBytes < c.length → b.fail = false →
      (c.take kMaxBytes).length = kMaxBytes ∧
      printFile b p c = ⟨b.str ++ ("### File: " ++ p ++ "\n") ++ langFence p ++
        String.mk (c.take kMaxBytes) ++
        ("\n... (truncated; original " ++ toString c.length ++
          " bytes, showing first " ++ toString kMaxBytes ++ " bytes)\n") ++
        "```\n\n", false⟩) := by
  refine ⟨by decide, by decide, by decide, ?_, ?_⟩
  · intro p c b hne hlen hb
    have hce : c.isEmpty = false := by
      cases c with
      | nil => exact absurd rfl hne
      | cons x xs => rfl
    simp [printFile, emit, emitRdbuf, hlen, hb, hce]
  · intro p c b hlen hb
    constructor
    · rw [List.length_take]
      omega
    · rw [printFile, if_neg (by omega)]
      simp [emit, hb]

theorem c1_file_renderer_witness :
    (printFile emptyBuf ("w.txt") ['y'] =
      ⟨emptyBuf.str ++ ("### File: " ++ "w.txt" ++ "\n") ++ langFence ("w.txt") ++
        String.mk ['y'] ++ "\n" ++ "```\n\n", false⟩) ∧
    (((List.replicate 16385 'z').take kMaxBytes).length = kMaxBytes) ∧
    (printFile emptyBuf ("big.txt") (List.replicate 16385 'z') =
      ⟨emptyBuf.str ++ ("### File: " ++ "big.txt" ++ "\n") ++ langFence ("big.txt") ++
        String.mk ((List.replicate 16385 'z').take kMaxBytes) ++
        ("\n... (truncated; original " ++ toString (List.replicate 16385 'z').length ++
          " bytes, showing first " ++ toString kMaxBytes ++ " bytes)\n") ++
        "```\n\n", false⟩) :=
  ⟨c1_file_renderer.2.2.2.1 ("w.txt") ['y'] emptyBuf (by decide) (by decide) rfl,
    (c1_file_renderer.2.2.2.2 ("big.txt") (List.replicate 16385 'z') emptyBuf
      (by rw [List.length_replicate]; decide) rfl).1,
    (c1_file_renderer.2.2.2.2 ("big.txt") (List.replicate 16385 'z') emptyBuf
      (by rw [List.length_replicate]; decide) rfl).2⟩

/-! ### C2: lexicographic listing order, and the empty-file shadow -/

theorem sortEntries_two_files (ca cb : List Char) :
    sortEntries [Entry.file ("b.txt") cb, Entry.file ("a.txt") ca] =
      [Entry.file ("a.txt") ca, Entry.file ("b.txt") cb] := by
  have hne : ¬ entLE (Entry.file ("b.txt") cb) (Entry.file ("a.txt") ca) :=
    (by decide : ¬ lexLE ("b.txt").data ("a.txt").data = true)
  simp [sortEntries, List.insertionSort, List.orderedInsert, hne]

/-- Claim C2, settled as a code bug.  Conjunct 1: each directory's
entries are processed in sorted (byte/codepoint ascending) filename
order.  Conjuncts 2 and 3: for a directory holding `b.txt` and `a.txt`
(in that enumeration order), the flattened file list and the structure
section both list `a.txt` before `b.txt`, whatever the contents.
Conjunct 4 exhibits the failing input for the claim's file-contents
half: when `a.txt` is empty, rendering the (correctly ordered) file
list stops dead after `a.txt`'s opening fence — `b.txt` is never listed
in the file-contents section, although the flattened list orders it
after `a.txt` (conjunct 5). -/
theorem c2_listing_order :
    (∀ es : List Entry, List.Sorted entLE (sortEntries es)) ∧
    (∀ (p n : String) (ca cb : List Char),
      collectFiles p (.dir n [.file ("b.txt") cb, .file ("a.txt") ca]) =
        [(joinPath p ("a.txt"), ca), (joinPath p ("b.txt"), cb)]) ∧
    (∀ (n : String) (ca cb : List Char) (d : Nat),
      (printStructure emptyBuf (.dir n [.file ("b.txt") cb, .file ("a.txt") ca]) d).str =
        indent d ++ "a.txt" ++ "\n" ++ indent d ++ "b.txt" ++ "\n") ∧
    ((renderFiles (collectFiles ("r") (.dir ("r") [.file ("b.txt") ['x'], .file ("a.txt") []]))
        emptyBuf).str = "### File: r/a.txt\n```\n") ∧
    (collectFiles ("r") (.dir ("r") [.file ("b.txt") ['x'], .file ("a.txt") []]) =
      [("r/a.txt", []), ("r/b.txt", ['x'])]) := by
  have hconc : collectFiles ("r") (.dir ("r") [.file ("b.txt") ['x'], .file ("a.txt") []]) =
      [("r/a.txt", []), ("r/b.txt", ['x'])] := by
    rw [collectFiles_dir, sortEntries_two_files]
    simp [joinPath, endsWithSlash]
  refine ⟨sortEntries_sorted, ?_, ?_, ?_, hconc⟩
  · intro p n ca cb
    rw [collectFiles_dir, sortEntries_two_files]
    simp
  · intro n ca cb d
    rw [printStructure_dir, sortEntries_two_files]
    simp [emit, emptyBuf, String.empty_append, String.append_assoc]
  · rw [hconc]
    decide

/-! ### C3: deterministic output -/

/-- Claim C3, confirmed.  Runs over the same unchanged logical tree —
even when the operating system enumerates directory entries in
different orders on the two runs — produce identical standard output,
error output and exit status, because every directory level is sorted
by filename before any recursion and sibling names are distinct. -/
theorem c3_deterministic_output {r₁ r₂ : String → Option Entry} (h : SameResolve r₁ r₂)
    (cwd : String) (args : List String) :
    runMain cwd r₁ args = runMain cwd r₂ args :=
  runMain_congr h cwd args

theorem c3_deterministic_output_witness :
    runMain ("/w")
      (fun s => if s = "r" then
        some (.dir ("r") [.file ("b.txt") ['x'], .file ("a.txt") ['y']]) else none) ["r"] =
    runMain ("/w")
      (fun s => if s = "r" then
        some (.dir ("r") [.file ("a.txt") ['y'], .file ("b.txt") ['x']]) else none) ["r"] := by
  refine c3_deterministic_output (fun s => ?_) "/w" ["r"]
  by_cases hs : s = "r"
  · subst hs
    refine Or.inr ⟨_, _, if_pos rfl, if_pos rfl, ?_, ?_⟩
    · exact SameFS.dir ("r") _ [.file ("a.txt") ['y'], .file ("b.txt") ['x']] _
        (List.Perm.swap _ _ _)
        (List.Forall₂.cons (SameFS.file _ _)
          (List.Forall₂.cons (SameFS.file _ _) List.Forall₂.nil))
    · refine WFNames.dir _ _ (by decide) ?_
      intro e he
      rcases List.mem_cons.mp he with rfl | he2
      · exact WFNames.file _ _
      · rcases List.mem_cons.mp he2 with rfl | he3
        · exact WFNames.file _ _
        · cases he3
  · exact Or.inl ⟨if_neg hs, if_neg hs⟩

/-! ### C4: the version-control subsection -/

/-- Claim C4 as frozen is false: for a root with no `.git` child the
program prints `Not a git repository` (capital `N`, with the word
`git`); the literal text `not a repository` required by the claim
occurs nowhere in the report. -/
theorem c4_notice_counterexample :
    isGitRepo (Entry.dir ("r") ([] : List Entry)) = false ∧
    printDir emptyBuf ("/c") "r" (Entry.dir ("r") []) =
      ⟨"# Repository Context\n\n## File System Location\n\n/c/r\n\n" ++
        "Not a git repository\n\n## Structure\n```\n```\n\n", false⟩ ∧
    ¬ ("not a repository".data <:+:
        (printDir emptyBuf ("/c") "r" (Entry.dir ("r") [])).str.data) := by
  have h1 : sortEntries ([] : List Entry) = [] := rfl
  have heval : printDir emptyBuf ("/c") "r" (Entry.dir ("r") []) =
      ⟨"# Repository Context\n\n## File System Location\n\n/c/r\n\n" ++
        "Not a git repository\n\n## Structure\n```\n```\n\n", false⟩ := by
    simp only [printDir, printStructure_dir, collectFiles_dir, h1,
      printStructList_nil, collectList_nil]
    decide
  refine ⟨rfl, heval, ?_⟩
  rw [heval]
  decide

/-- Claim C4, amended: the notice's literal text is
`Not a git repository` (the code's capitalisation and wording).  For
any healthy buffer: without a `.git` directory child the report reads
heading, location, then `Not a git repository`; with one it reads
heading, location, then the placeholder heading `## Git Info`. -/
theorem c4_vcs_section (b : Buf) (cwd p : String) (t : Entry) (hb : b.fail = false) :
    (isGitRepo t = false → ∃ tail, (printDir b cwd p t).str =
      b.str ++ "# Repository Context\n\n" ++ "## File System Location\n\n" ++
        (fsAbsolute cwd p ++ "\n\n") ++ "Not a git repository\n\n" ++ tail) ∧
    (isGitRepo t = true → ∃ tail, (printDir b cwd p t).str =
      b.str ++ "# Repository Context\n\n" ++ "## File System Location\n\n" ++
        (fsAbsolute cwd p ++ "\n\n") ++ "## Git Info\n\n" ++ tail) := by
  obtain ⟨hsk, s, fl, hgood⟩ := stepfn_structTail p t
  constructor
  · intro hgit
    refine ⟨s, ?_⟩
    rw [printDir_eq_dirTail, emit_of_good hb, emit_of_good rfl, emit_of_good rfl]
    unfold dirTail
    rw [hgit]
    simp only [Bool.false_eq_true, if_false]
    rw [emit_of_good rfl, hgood _ rfl]
  · intro hgit
    refine ⟨s, ?_⟩
    rw [printDir_eq_dirTail, emit_of_good hb, emit_of_good rfl, emit_of_good rfl]
    unfold dirTail
    rw [hgit]
    simp only [if_true]
    rw [emit_of_good rfl, hgood _ rfl]

theorem c4_vcs_section_witness :
    (∃ tail, (printDir emptyBuf ("/c") "r" (Entry.dir ("r") [])).str =
      emptyBuf.str ++ "# Repository Context\n\n" ++ "## File System Location\n\n" ++
        (fsAbsolute ("/c") "r" ++ "\n\n") ++ "Not a git repository\n\n" ++ tail) ∧
    (∃ tail, (printDir emptyBuf ("/c") "g" (Entry.dir ("g") [Entry.dir (".git") []])).str =
      emptyBuf.str ++ "# Repository Context\n\n" ++ "## File System Location\n\n" ++
        (fsAbsolute ("/c") "g" ++ "\n\n") ++ "## Git Info\n\n" ++ tail) :=
  ⟨(c4_vcs_section emptyBuf ("/c") "r" (Entry.dir ("r") []) rfl).1 rfl,
    (c4_vcs_section emptyBuf ("/c") "g" (Entry.dir ("g") [Entry.dir (".git") []]) rfl).2 rfl⟩

/-! ### C5: the file-system-location subsection -/

/-- Claim C5 as frozen is false: the location line holds
`fs::absolute(p)`, which does not canonicalize.  For the root
`a/../b` under working directory `/c` the canonical path is `/c/b`,
but the report's location subsection shows `/c/a/../b`; the
canonicalized form appears nowhere. -/
theorem c5_canonical_counterexample :
    fsAbsolute ("/c") "a/../b" = "/c/a/../b" ∧
    specCanonicalize (fsAbsolute ("/c") "a/../b") = "/c/b" ∧
    printDir emptyBuf ("/c") "a/../b" (Entry.dir ("b") []) =
      ⟨"# Repository Context\n\n## File System Location\n\n/c/a/../b\n\n" ++
        "Not a git repository\n\n## Structure\n```\n```\n\n", false⟩ ∧
    ¬ (("## File System Location\n\n" ++ "/c/b" ++ "\n\n").data <:+:
        (printDir emptyBuf ("/c") "a/../b" (Entry.dir ("b") [])).str.data) := by
  have h1 : sortEntries ([] : List Entry) = [] := rfl
  have heval : printDir emptyBuf ("/c") "a/../b" (Entry.dir ("b") []) =
      ⟨"# Repository Context\n\n## File System Location\n\n/c/a/../b\n\n" ++
        "Not a git repository\n\n## Structure\n```\n```\n\n", false⟩ := by
    simp only [printDir, printStructure_dir, collectFiles_dir, h1,
      printStructList_nil, collectList_nil]
    decide
  refine ⟨by decide, by decide, heval, ?_⟩
  rw [heval]
  decide

/-- Claim C5, amended: the location subsection contains the root's
absolute, forward-slash path exactly as `current_path() / p` produces
it — `.` and `..` components are not resolved (no canonicalization). -/
theorem c5_location_section (b : Buf) (cwd p : String) (t : Entry) (hb : b.fail = false) :
    ∃ tail, (printDir b cwd p t).str =
      b.str ++ "# Repository Context\n\n" ++ "## File System Location\n\n" ++
        (fsAbsolute cwd p ++ "\n\n") ++ tail := by
  obtain ⟨hsk, s, fl, hgood⟩ := stepfn_structTail p t
  by_cases hgit : isGitRepo t
  · refine ⟨"## Git Info\n\n" ++ s, ?_⟩
    rw [printDir_eq_dirTail, emit_of_good hb, emit_of_good rfl, emit_of_good rfl]
    unfold dirTail
    rw [hgit]
    simp only [if_true]
    rw [emit_of_good rfl, hgood _ rfl, String.append_assoc]
  · refine ⟨"Not a git repository\n\n" ++ s, ?_⟩
    rw [printDir_eq_dirTail, emit_of_good hb, emit_of_good rfl, emit_of_good rfl]
    unfold dirTail
    rw [if_neg hgit]
    rw [emit_of_good rfl, hgood _ rfl, String.append_assoc]

theorem c5_location_section_witness :
    ∃ tail, (printDir emptyBuf ("/c") "a/../b" (Entry.dir ("b") [])).str =
      emptyBuf.str ++ "# Repository Context\n\n" ++ "## File System Location\n\n" ++
        (fsAbsolute ("/c") "a/../b" ++ "\n\n") ++ tail :=
  c5_location_section emptyBuf ("/c") "a/../b" (Entry.dir ("b") []) rfl

/-! ### C6: a missing path is a non-fatal diagnostic -/

/-- Claim C6, confirmed.  A sole positional argument naming a
non-existent path yields: empty standard output (in particular no
file-contents section), the diagnostic on the error stream, and exit
status 0; and inside the processing loop a missing path only appends
its diagnostic and continues with the remaining targets. -/
theorem c6_missing_path (cwd : String) (resolve : String → Option Entry) (p : String)
    (hp : startsDash p = false) (h : resolve p = none) :
    runMain cwd resolve [p] = ("", p ++ "is not a valid directory or file\n", 0) ∧
    (∀ (b : Buf) (err : String) (rest : List String),
      processTargets cwd resolve b err (p :: rest) =
        processTargets cwd resolve b (err ++ p ++ "is not a valid directory or file\n") rest) := by
  constructor
  · have hparse : parseLoop [] [p] = ParseOut.run [p] := by
      rw [parseLoop_push hp]
      rfl
    simp only [runMain, hparse]
    simp [processTargets, h, emptyBuf]
  · intro b err rest
    simp [processTargets, h]

theorem c6_missing_path_witness :
    runMain ("/c") (fun _ => none) ["missing"] =
      ("", "missing" ++ "is not a valid directory or file\n", 0) ∧
    processTargets ("/c") (fun _ => none) emptyBuf ("") ["missing", "also"] =
      processTargets ("/c") (fun _ => none) emptyBuf
        ("" ++ "missing" ++ "is not a valid directory or file\n") ["also"] :=
  ⟨(c6_missing_path ("/c") (fun _ => none) "missing" rfl rfl).1,
    (c6_missing_path ("/c") (fun _ => none) "missing" rfl rfl).2 emptyBuf ("") ["also"]⟩

/-! ### C7: unknown options -/

/-- Claim C7 as frozen is false: the invocation `-h -x` contains the
argument `-x`, which starts with `-` and is none of the four flags,
yet the process prints the help text and exits with status 0, because
the arguments are scanned left to right and `-h` short-circuits
first. -/
theorem c7_flag_before_unknown_counterexample :
    startsDash ("-x") = true ∧ "-x" ∉ flagTokens ∧
    runMain ("/c") (fun _ => none) ["-h", "-x"] = (helpText, "", 0) :=
  ⟨rfl, by decide, rfl⟩

/-- Claim C7, amended: for every invocation containing an argument that
starts with `-` and is none of `-h`, `--help`, `-v`, `--version`, and
in which no help/version flag occurs earlier in the argument list, the
process writes "Unknown option:" plus the usage hint for the first such
option to the error stream, exits with status 1, and writes nothing to
standard output. -/
theorem c7_unknown_option_fatal (cwd : String) (resolve : String → Option Entry)
    (l₁ l₂ : List String) (a : String) (ha : startsDash a = true) (haf : a ∉ flagTokens)
    (hflag : ∀ x ∈ l₁, x ∉ flagTokens) :
    ∃ u, startsDash u = true ∧ u ∉ flagTokens ∧
      runMain cwd resolve (l₁ ++ a :: l₂) =
        ("", "Unknown option: " ++ u ++ "\n" ++ "Use -h or --help for usage.\n", 1) := by
  obtain ⟨u, hu1, hu2, hu3⟩ := parseLoop_unknown ha haf l₂ l₁ hflag []
  exact ⟨u, hu1, hu2, by simp only [runMain, hu3]⟩

theorem c7_unknown_option_fatal_witness :
    ∃ u, startsDash u = true ∧ u ∉ flagTokens ∧
      runMain ("/c") (fun _ => none) (["p"] ++ "-x" :: ["-h"]) =
        ("", "Unknown option: " ++ u ++ "\n" ++ "Use -h or --help for usage.\n", 1) :=
  c7_unknown_option_fatal ("/c") (fun _ => none) ["p"] ["-h"] "-x" rfl (by decide) (by decide)

/-! ### C8: entries that are neither directories nor regular files -/

/-- Claim C8, confirmed.  An entry classified neither a directory nor a
regular file contributes nothing: deleting all such entries from a
directory changes neither the flattened file list nor the structure
rendering, and such a node on its own yields an empty file list and no
structure output. -/
theorem c8_other_entries_ignored (p n m : String) (es : List Entry) (b : Buf) (d : Nat) :
    collectFiles p (.dir n es) =
      collectFiles p (.dir n (es.filter (fun e => !e.isOther))) ∧
    printStructure b (.dir n es) d =
      printStructure b (.dir n (es.filter (fun e => !e.isOther))) d ∧
    collectFiles p (.other m) = [] ∧
    printStructure b (.other m) d = b := by
  refine ⟨?_, ?_, by simp, by simp⟩
  · rw [collectFiles_dir, collectFiles_dir, ← filter_sortEntries,
      collectList_filter_other]
  · rw [printStructure_dir, printStructure_dir, ← filter_sortEntries,
      printStructList_filter_other]

/-! ### C9: an existing target that is neither directory nor file -/

/-- Claim C9, confirmed.  A top-level target that exists but is neither
a directory nor a regular file falls through every branch of the
processing loop: no diagnostic, no output section, processing continues
with the remaining targets; as a sole argument the run prints nothing
anywhere and exits 0. -/
theorem c9_other_target_silently_skipped (cwd : String) (resolve : String → Option Entry)
    (p m : String) (hp : startsDash p = false) (h : resolve p = some (.other m)) :
    (∀ (b : Buf) (err : String) (rest : List String),
      processTargets cwd resolve b err (p :: rest) =
        processTargets cwd resolve b err rest) ∧
    runMain cwd resolve [p] = ("", "", 0) := by
  constructor
  · intro b err rest
    simp [processTargets, h]
  · have hparse : parseLoop [] [p] = ParseOut.run [p] := by
      rw [parseLoop_push hp]
      rfl
    simp only [runMain, hparse]
    simp [processTargets, h, emptyBuf]

theorem c9_other_target_silently_skipped_witness :
    processTargets ("/c") (fun s => if s = "sock" then some (.other ("sock")) else none)
        emptyBuf ("") ["sock", "next"] =
      processTargets ("/c") (fun s => if s = "sock" then some (.other ("sock")) else none)
        emptyBuf ("") ["next"] ∧
    runMain ("/c") (fun s => if s = "sock" then some (.other ("sock")) else none) ["sock"] =
      ("", "", 0) :=
  ⟨(c9_other_target_silently_skipped ("/c") _ ("sock") "sock" rfl (if_pos rfl)).1
      emptyBuf ("") ["next"],
    (c9_other_target_silently_skipped ("/c") _ ("sock") "sock" rfl (if_pos rfl)).2⟩

/-! ### C10: help/version flags short-circuit from any position -/

theorem parseLoop_skip_paths (l₂ : List String) (f : String) :
    ∀ (l₁ : List String), (∀ x ∈ l₁, startsDash x = false) → ∀ acc,
      parseLoop acc (l₁ ++ f :: l₂) = parseLoop (acc ++ l₁) (f :: l₂) := by
  intro l₁
  induction l₁ with
  | nil => intro _ acc; simp
  | cons x xs ih =>
    intro hx acc
    rw [List.cons_append, parseLoop_push (hx x (List.mem_cons_self x xs)),
      ih (fun y hy => hx y (List.mem_cons_of_mem x hy)) (acc ++ [x])]
    simp

/-- Claim C10, confirmed.  A `-h`/`--help`/`-v`/`--version` flag
appearing after any number of positional path arguments still
short-circuits the whole invocation: only the help or version text is
printed to standard output, nothing to the error stream, the paths are
never processed (the file system is never consulted), and the exit
status is 0. -/
theorem c10_flag_short_circuit (cwd : String) (resolve : String → Option Entry)
    (l₁ l₂ : List String) (hpos : ∀ x ∈ l₁, startsDash x = false) :
    runMain cwd resolve (l₁ ++ "-h" :: l₂) = (helpText, "", 0) ∧
    runMain cwd resolve (l₁ ++ "--help" :: l₂) = (helpText, "", 0) ∧
    runMain cwd resolve (l₁ ++ "-v" :: l₂) = (versionText, "", 0) ∧
    runMain cwd resolve (l₁ ++ "--version" :: l₂) = (versionText, "", 0) := by
  refine ⟨?_, ?_, ?_, ?_⟩ <;>
    simp only [runMain, parseLoop_skip_paths _ _ l₁ hpos []] <;>
    rfl

theorem c10_flag_short_circuit_witness :
    runMain ("/c") (fun _ => none) (["p1", "p2"] ++ "-h" :: ["q"]) = (helpText, "", 0) ∧
    runMain ("/c") (fun _ => none) (["p1", "p2"] ++ "--help" :: ["q"]) = (helpText, "", 0) ∧
    runMain ("/c") (fun _ => none) (["p1", "p2"] ++ "-v" :: ["q"]) = (versionText, "", 0) ∧
    runMain ("/c") (fun _ => none) (["p1", "p2"] ++ "--version" :: ["q"]) =
      (versionText, "", 0) :=
  c10_flag_short_circuit ("/c") (fun _ => none) ["p1", "p2"] ["q"] (by decide)

end RepoPac
